import Mathlib

/-!
Shallow embedding of the job-queue engine of the sunset-sunrise-predictor
repository (packages/db/src/queue.ts, packages/db/src/locations.ts, and the
jobs HTTP route's EnqueueSchema), together with proofs about the embedded
operations.

Modelling conventions:
* The database is a `QueueState`: the list of `job_queue` rows, the list of
  `job_runs` rows (most recent first, i.e. inserts cons at the front), and
  the next serial id.
* Wall-clock instants are epoch milliseconds as `Int`; every operation takes
  `now` explicitly (the TypeScript uses `Date.now()` / SQL `now()`).
* `Math.random()`-derived jitter is an explicit `jitter` parameter.
* Each SQL statement / drizzle query is translated row-by-row: an
  `UPDATE ... WHERE c` is a `List.map` applying the update to rows
  satisfying `c`; `INSERT` appends; `ON CONFLICT (type,key) DO UPDATE`
  branches on whether a row with that `(type, key)` exists.
* `FOR UPDATE SKIP LOCKED` is concurrency control inside one SQL statement;
  in this sequential one-transaction-at-a-time model each operation is
  atomic, so it has no further content here.
* JS strings become Lean `String`; `s.slice(0, max)` is the first `max`
  characters, `String.mk (s.data.take max)`.
-/

namespace SunsetQueue

/-- `job_status` enum from the schema: queued | running | retrying |
succeeded | dead. -/
inductive JobStatus where
  | queued
  | running
  | retrying
  | succeeded
  | dead
deriving DecidableEq, Repr

/-- One row of the `job_queue` table (`JobRow` / `typeof jobQueue.$inferSelect`
in queue.ts). Timestamps are epoch ms (`Int`). `payload` is opaque JSON,
modelled as its serialized text. -/
structure JobRow where
  id : Nat
  type : String
  key : String
  payload : String
  status : JobStatus
  runAfter : Int
  attempts : Int
  maxAttempts : Int
  lockedBy : Option String
  lockedAt : Option Int
  lastError : Option String
  lastErrorAt : Option Int
  createdAt : Int
  updatedAt : Int
deriving DecidableEq, Repr

/-- One row of the append-only `job_runs` table. -/
structure JobRun where
  jobId : Nat
  type : String
  key : String
  attempt : Int
  status : String
  startedAt : Int
  finishedAt : Int
  durationMs : Int
  errorMessage : Option String
  errorStack : Option String
  resultSummary : Option String
deriving DecidableEq, Repr

/-- The queue database: `job_queue` rows, `job_runs` rows (most recent
first), and the next serial id. -/
structure QueueState where
  jobs : List JobRow
  runs : List JobRun
  nextId : Nat
deriving DecidableEq, Repr

/-- The empty database. -/
def emptyState : QueueState := { jobs := [], runs := [], nextId := 1 }

/-- `EnqueueInput` from queue.ts: optional fields use `Option`; the
defaults (`?? {}`, `?? Date.now()`, `?? 5`) are applied inside
`enqueueJob`, as in the source. -/
structure EnqueueInput where
  type : String
  key : String
  payload : Option String
  runAfterMs : Option Int
  maxAttempts : Option Int
deriving DecidableEq, Repr

/-- `backoffMs` from queue.ts:
`exp = Math.min(cap, base * Math.pow(2, Math.max(0, attempt - 1)))` with
`base = 10_000`, `cap = 15 * 60_000`; the random jitter
`Math.floor(Math.random() * 1000)` is the explicit `jitter` parameter.
All quantities involved are integers that doubles represent exactly up to
the cap, and past the cap `min` selects the cap, so integer arithmetic is
faithful. -/
def backoffMs (attempt : Int) (jitter : Int) : Int :=
  min (15 * 60000) (10000 * 2 ^ (max 0 (attempt - 1)).toNat) + jitter

/-- `trim` from queue.ts:
`s.length <= max ? s : s.slice(0, max) + "â€¦"`. The appended marker in
the source file is the literal three-character sequence `â€¦` (bytes
c3 a2 e2 82 ac c2 a6: U+00E2, U+20AC, U+00A6 — a mojibake ellipsis),
which is three UTF-16 code units in JS, appended after slicing to `max`
characters. -/
def trim (s : String) (max : Nat) : String :=
  if s.length ≤ max then s else String.mk (s.data.take max) ++ "â€¦"

/-- The `SET` clause of `enqueueJob`'s `ON CONFLICT (type, key) DO UPDATE`:
`payload` is set unconditionally; `status`, `run_after` and `attempts` are
kept when the row is `running` (`CASE WHEN status = 'running' ...`) and
reset otherwise; `max_attempts` is refreshed, `last_error`/`last_error_at`
cleared, `updated_at` bumped. -/
def conflictUpdate (payload : String) (runAfter : Int) (maxAttempts : Int)
    (now : Int) (r : JobRow) : JobRow :=
  { r with
    payload := payload
    status := if r.status = JobStatus.running then r.status else JobStatus.queued
    runAfter := if r.status = JobStatus.running then r.runAfter else runAfter
    attempts := if r.status = JobStatus.running then r.attempts else 0
    maxAttempts := maxAttempts
    lastError := none
    lastErrorAt := none
    updatedAt := now }

/-- `enqueueJob` from queue.ts: insert a fresh `queued` row with
`attempts = 0`, or on `(type, key)` conflict apply `conflictUpdate` to the
existing row; returns the resulting row (`RETURNING`). Unsupplied insert
columns (`locked_by`, ..., `created_at`) take their schema defaults. -/
def enqueueJob (st : QueueState) (input : EnqueueInput) (now : Int) :
    QueueState × JobRow :=
  let payload := input.payload.getD "{}"
  let runAfter := input.runAfterMs.getD now
  let maxAttempts := input.maxAttempts.getD 5
  match st.jobs.find? (fun r => r.type = input.type ∧ r.key = input.key) with
  | none =>
      let row : JobRow :=
        { id := st.nextId, type := input.type, key := input.key
          payload := payload, status := JobStatus.queued
          runAfter := runAfter, attempts := 0, maxAttempts := maxAttempts
          lockedBy := none, lockedAt := none
          lastError := none, lastErrorAt := none
          createdAt := now, updatedAt := now }
      ({ st with jobs := st.jobs ++ [row], nextId := st.nextId + 1 }, row)
  | some r =>
      ({ st with jobs := st.jobs.map (fun j =>
          if j.id = r.id then conflictUpdate payload runAfter maxAttempts now j
          else j) },
       conflictUpdate payload runAfter maxAttempts now r)

/-- The `WHERE` clause of `claimNextJob`'s candidate select:
`status IN ('queued','retrying') AND run_after <= now()`. -/
def eligible (now : Int) (r : JobRow) : Bool :=
  (r.status = JobStatus.queued ∨ r.status = JobStatus.retrying) ∧ r.runAfter ≤ now

/-- `ORDER BY run_after ASC, id ASC`: `a` strictly precedes `b`. -/
def ordBefore (a b : JobRow) : Bool :=
  a.runAfter < b.runAfter ∨ (a.runAfter = b.runAfter ∧ a.id < b.id)

/-- `ORDER BY run_after ASC, id ASC LIMIT 1`: first row in that order. -/
def pickMin : List JobRow → Option JobRow
  | [] => none
  | r :: rs =>
    match pickMin rs with
    | none => some r
    | some b => if ordBefore b r then some b else some r

/-- The `SET` clause of `claimNextJob`'s `UPDATE`: `status = 'running'`,
`locked_by = workerId`, `locked_at = now()`, `attempts = attempts + 1`,
`updated_at = now()`. -/
def claimUpdate (workerId : String) (now : Int) (r : JobRow) : JobRow :=
  { r with
    status := JobStatus.running
    lockedBy := some workerId
    lockedAt := some now
    attempts := r.attempts + 1
    updatedAt := now }

/-- `claimNextJob` from queue.ts: one atomic CTE selecting the eligible row
with smallest `(run_after, id)` and updating it (`WHERE id IN next_job ...
RETURNING`); `none` when no row is eligible. -/
def claimNextJob (st : QueueState) (workerId : String) (now : Int) :
    QueueState × Option JobRow :=
  match pickMin (st.jobs.filter (eligible now)) with
  | none => (st, none)
  | some m =>
      ({ st with jobs := st.jobs.map (fun j =>
          if j.id = m.id then claimUpdate workerId now j else j) },
       some (claimUpdate workerId now m))

/-- The `WHERE` clause of `requeueStaleRunningJobs`:
`status = 'running' AND locked_at IS NOT NULL AND
locked_at < now() - leaseSeconds * interval '1 second'`. -/
def stale (leaseSeconds : Int) (now : Int) (r : JobRow) : Bool :=
  decide (r.status = JobStatus.running) &&
    match r.lockedAt with
    | none => false
    | some t => decide (t < now - leaseSeconds * 1000)

/-- `requeueStaleRunningJobs` from queue.ts: single `UPDATE` setting
`status = 'retrying'`, clearing the lock, `run_after = now()`,
`updated_at = now()`, `last_error = COALESCE(last_error, 'stale lease
reclaimed')`, `last_error_at = now()` on every stale running row. -/
def requeueStaleRunningJobs (st : QueueState) (leaseSeconds : Int) (now : Int) :
    QueueState :=
  { st with jobs := st.jobs.map (fun r =>
      if stale leaseSeconds now r then
        { r with
          status := JobStatus.retrying
          lockedBy := none
          lockedAt := none
          runAfter := now
          updatedAt := now
          lastError := some (r.lastError.getD "stale lease reclaimed")
          lastErrorAt := some now }
      else r) }

/-- `JobSuccessContext`: the fields of the claimed job that
`markJobSuccess` reads. -/
structure JobSuccessContext where
  id : Nat
  type : String
  key : String
  attempts : Int
deriving DecidableEq, Repr

/-- `JobFailureContext`: the fields of the claimed job that
`markJobFailure` reads. -/
structure JobFailureContext where
  id : Nat
  type : String
  key : String
  attempts : Int
  maxAttempts : Int
deriving DecidableEq, Repr

/-- `markJobSuccess` from queue.ts: in one transaction, insert a
`success` JobRun (with `resultSummary ? trim(resultSummary, 2000) : null`;
note the empty string is falsy) and update the job row selected by `id`
alone to `succeeded`, clearing lock and last-error fields. -/
def markJobSuccess (st : QueueState) (job : JobSuccessContext)
    (startedAtMs finishedAtMs : Int) (resultSummary : Option String) :
    QueueState :=
  let run : JobRun :=
    { jobId := job.id, type := job.type, key := job.key
      attempt := job.attempts, status := "success"
      startedAt := startedAtMs, finishedAt := finishedAtMs
      durationMs := finishedAtMs - startedAtMs
      errorMessage := none, errorStack := none
      resultSummary :=
        match resultSummary with
        | none => none
        | some s => if s.isEmpty then none else some (trim s 2000) }
  { st with
    runs := run :: st.runs
    jobs := st.jobs.map (fun r =>
      if r.id = job.id then
        { r with
          status := JobStatus.succeeded
          lockedBy := none
          lockedAt := none
          lastError := none
          lastErrorAt := none
          updatedAt := finishedAtMs }
      else r) }

/-- `markJobFailure` from queue.ts: `attempt = job.attempts` (already
incremented on claim), `willRetry = attempt < job.maxAttempts`; in one
transaction, insert a `fail` JobRun (trimmed message and stack; an empty
stack is falsy and stored as null) and update the job row selected by `id`
alone: status `retrying`/`dead`, lock cleared, `last_error` set, and
`run_after = finishedAt + backoffMs(attempt)` only when retrying. The
error-message extraction (`err instanceof Error ...`) is the `message` /
`stack` parameters. -/
def markJobFailure (st : QueueState) (job : JobFailureContext)
    (startedAtMs finishedAtMs : Int) (message stack : String)
    (jitter : Int) : QueueState :=
  let attempt := job.attempts
  let willRetry := attempt < job.maxAttempts
  let nextRunAfterMs := finishedAtMs + backoffMs attempt jitter
  let run : JobRun :=
    { jobId := job.id, type := job.type, key := job.key
      attempt := attempt, status := "fail"
      startedAt := startedAtMs, finishedAt := finishedAtMs
      durationMs := finishedAtMs - startedAtMs
      errorMessage := some (trim message 2000)
      errorStack := if stack.isEmpty then none else some (trim stack 8000)
      resultSummary := none }
  { st with
    runs := run :: st.runs
    jobs := st.jobs.map (fun r =>
      if r.id = job.id then
        { r with
          status := if willRetry then JobStatus.retrying else JobStatus.dead
          lockedBy := none
          lockedAt := none
          lastError := some (trim message 2000)
          lastErrorAt := some finishedAtMs
          runAfter := if willRetry then nextRunAfterMs else r.runAfter
          updatedAt := finishedAtMs }
      else r) }

/-- `EnqueueSchema` from the jobs HTTP route (zod):
`type: z.string().min(1)`, `key: z.string().min(1)`,
`payload: z.unknown().optional()`,
`runAfterMs: z.coerce.number().int().nonnegative().optional()`,
`maxAttempts: z.coerce.number().int().positive().max(50).optional()`.
`EnqueueSchema.parse` succeeds exactly when this returns `true`. -/
def enqueueSchemaOk (input : EnqueueInput) : Bool :=
  decide (1 ≤ input.type.length) && decide (1 ≤ input.key.length) &&
    (match input.runAfterMs with
     | none => true
     | some n => decide (0 ≤ n)) &&
    (match input.maxAttempts with
     | none => true
     | some m => decide (0 < m) && decide (m ≤ 50))

/-- The `POST /jobs` route handler: `EnqueueSchema.parse(req.body)` throws
a validation error (the spec's `InvalidInput`) before `enqueueJob` is
reached; otherwise it enqueues and responds 201 with the job. -/
def postJobs (st : QueueState) (input : EnqueueInput) (now : Int) :
    Except String (QueueState × JobRow) :=
  if enqueueSchemaOk input then Except.ok (enqueueJob st input now)
  else Except.error "InvalidInput"

/-- One queue-engine operation with its inputs, for stating reachability.
`succ`/`fail` carry the claimed-job context the worker passes back. -/
inductive Action where
  | enq (input : EnqueueInput) (now : Int)
  | claim (workerId : String) (now : Int)
  | succ (job : JobSuccessContext) (startedAtMs finishedAtMs : Int)
      (resultSummary : Option String)
  | fail (job : JobFailureContext) (startedAtMs finishedAtMs : Int)
      (message stack : String) (jitter : Int)
  | reclaim (leaseSeconds : Int) (now : Int)
deriving Repr

/-- Apply one operation to the state (discarding the returned row). -/
def step (st : QueueState) : Action → QueueState
  | Action.enq input now => (enqueueJob st input now).1
  | Action.claim w now => (claimNextJob st w now).1
  | Action.succ job s f rs => markJobSuccess st job s f rs
  | Action.fail job s f msg stk j => markJobFailure st job s f msg stk j
  | Action.reclaim l now => requeueStaleRunningJobs st l now

/-- Run a whole sequence of operations from a state. -/
def run (st : QueueState) (as : List Action) : QueueState :=
  as.foldl step st

/-- States reachable from the empty database by any interleaving of the
five queue-engine operations. -/
inductive Reachable : QueueState → Prop where
  | init : Reachable emptyState
  | step {st : QueueState} {a : Action} : Reachable st → Reachable (step st a)

/-- Well-formedness the database schema enforces: distinct serial ids, all
below `nextId`, and the unique index on `(type, key)`. -/
def WF (st : QueueState) : Prop :=
  (st.jobs.map (fun r => r.id)).Nodup ∧
  (∀ r ∈ st.jobs, r.id < st.nextId) ∧
  (st.jobs.map (fun r => (r.type, r.key))).Nodup

/-- The attempts bound of the spec, with the strengthening that makes it
inductive: claim-eligible rows still have strictly fewer attempts than
`max_attempts`. -/
def AttemptsInv (st : QueueState) : Prop :=
  ∀ r ∈ st.jobs, r.attempts ≤ r.maxAttempts ∧
    ((r.status = JobStatus.queued ∨ r.status = JobStatus.retrying) →
      r.attempts < r.maxAttempts)

/-- Side conditions under which the attempts bound is preserved:
`reclaim_stale` never runs; every enqueue carries a positive
`max_attempts` (as the admission schema guarantees) that is not below the
current attempts of a running row with the same `(type, key)`; and
success/failure are reported with the context of the row as it currently
stands (one completion per claim, no stale contexts). -/
def Good (st : QueueState) : Action → Prop
  | Action.enq input _ =>
      0 < input.maxAttempts.getD 5 ∧
      ∀ r ∈ st.jobs, r.type = input.type → r.key = input.key →
        r.status = JobStatus.running → r.attempts ≤ input.maxAttempts.getD 5
  | Action.claim _ _ => True
  | Action.succ _ _ _ _ => True
  | Action.fail job _ _ _ _ _ =>
      ∀ r ∈ st.jobs, r.id = job.id →
        job.attempts = r.attempts ∧ job.maxAttempts = r.maxAttempts
  | Action.reclaim _ _ => False

/-- States reachable from the empty database by operations satisfying
`Good`. -/
inductive ReachableGood : QueueState → Prop where
  | init : ReachableGood emptyState
  | step {st : QueueState} {a : Action} :
      ReachableGood st → Good st a → ReachableGood (step st a)

/-- A concrete running row, used to instantiate theorems. -/
def exRunningRow : JobRow :=
  { id := 1, type := "score", key := "loc:1", payload := "A"
    status := JobStatus.running, runAfter := 0, attempts := 1, maxAttempts := 5
    lockedBy := some "w1", lockedAt := some 0
    lastError := none, lastErrorAt := none, createdAt := 0, updatedAt := 0 }

/-- A one-row database holding `exRunningRow`. -/
def exRunningState : QueueState :=
  { jobs := [exRunningRow], runs := [], nextId := 2 }

/-- An enqueue input hitting `exRunningRow`'s `(type, key)` with a
different payload. -/
def exEnqueueB : EnqueueInput :=
  { type := "score", key := "loc:1", payload := some "B"
    runAfterMs := some 50, maxAttempts := some 3 }

/-- Enqueue input with `max_attempts = 1`, for the stale-reclaim trace. -/
def exReclaimInput : EnqueueInput :=
  { type := "t", key := "k", payload := none
    runAfterMs := some 0, maxAttempts := some 1 }

/-- Enqueue, claim, stale-reclaim after the lease expired, claim again. -/
def exReclaimTrace : List Action :=
  [Action.enq exReclaimInput 0, Action.claim "w1" 10,
   Action.reclaim 1 2000000, Action.claim "w2" 2000001]

/-- A 2001-character error message. -/
def longErrorMessage : String := String.mk (List.replicate 2001 'a')

/-- Failure context matching `exRunningRow`. -/
def exFailureCtx : JobFailureContext :=
  { id := 1, type := "score", key := "loc:1", attempts := 1, maxAttempts := 5 }

/-- Success context matching `exRunningRow`. -/
def exSuccessCtx : JobSuccessContext :=
  { id := 1, type := "score", key := "loc:1", attempts := 1 }

/-- A schema-valid enqueue input, for witnesses. -/
def exPingInput : EnqueueInput :=
  { type := "ping", key := "ping:test", payload := none
    runAfterMs := some 0, maxAttempts := none }

end SunsetQueue

namespace SunsetLocations

/-- `normalizeNegativeZero` from locations.ts: `Object.is(n, -0) ? 0 : n`.
The coordinate arithmetic is embedded over `ℚ`, where there is no signed
zero (`-0 = 0`), so this is the identity map; it is kept as a named
definition mirroring the source. -/
def normalizeNegativeZero (n : ℚ) : ℚ := n

/-- JS `Math.round`: round half toward positive infinity, `⌊x + 1/2⌋`.
(For the concrete coordinates considered below the double computations of
the source are exact — e.g. `0.0005 * 1000` evaluates to exactly `0.5` in
IEEE-754 binary64 — so the rational model agrees with the JS values.) -/
def jsRound (x : ℚ) : ℤ := ⌊x + 1 / 2⌋

/-- `roundTo` from locations.ts:
`normalizeNegativeZero(Math.round(n * factor) / factor)` with
`factor = Math.pow(10, decimals)`. -/
def roundTo (n : ℚ) (decimals : ℕ) : ℚ :=
  normalizeNegativeZero ((jsRound (n * 10 ^ decimals) : ℚ) / 10 ^ decimals)

/-- Left-pad a digit string with zeros to the given length. -/
def padLeftZeros (s : String) (len : Nat) : String :=
  String.mk (List.replicate (len - s.length) '0') ++ s

/-- JS `Number.prototype.toFixed(d)` for values that are exact multiples
of `10 ^ (-d)` — the only case `makeLocationKey` uses, since `roundTo` has
already rounded: optional sign, integer digits, point, `d` fraction
digits. JS renders `-0` without a sign (`(-0).toFixed(3) = "0.000"`),
which the rational model matches since `-0 = 0` in `ℚ`. -/
def toFixed (q : ℚ) (d : Nat) : String :=
  let n : ℤ := jsRound (q * 10 ^ d)
  let sign := if n < 0 then "-" else ""
  let m := n.natAbs
  sign ++ toString (m / 10 ^ d) ++ "." ++ padLeftZeros (toString (m % 10 ^ d)) d

/-- `makeLocationKey` from locations.ts:
`roundTo(lat, decimals).toFixed(decimals) + "," +
roundTo(lon, decimals).toFixed(decimals)`. -/
def makeLocationKey (lat lon : ℚ) (decimals : Nat := 3) : String :=
  toFixed (roundTo lat decimals) decimals ++ "," ++
    toFixed (roundTo lon decimals) decimals

end SunsetLocations

/-! ## Lemmas about the embedded operations -/

namespace SunsetQueue

lemma string_length_mk (l : List Char) : (String.mk l).length = l.length := rfl

lemma string_length_append (a b : String) :
    (a ++ b).length = a.length + b.length := by
  cases a; cases b; simp [String.length, String.append]

lemma trim_length (s : String) (max : Nat) :
    (trim s max).length = if s.length ≤ max then s.length else max + 3 := by
  unfold trim
  by_cases h : s.length ≤ max
  · simp only [if_pos h]
  · simp only [if_neg h]
    rw [string_length_append, string_length_mk, List.length_take]
    have h2 : ("â€¦" : String).length = 3 := rfl
    have h3 : s.length = s.data.length := rfl
    rw [h2]
    rw [h3] at h
    omega

lemma eligible_iff (now : Int) (r : JobRow) :
    eligible now r = true ↔
      (r.status = JobStatus.queued ∨ r.status = JobStatus.retrying) ∧
        r.runAfter ≤ now := by
  simp [eligible]

lemma stale_iff (l now : Int) (r : JobRow) :
    stale l now r = true ↔
      r.status = JobStatus.running ∧
        ∃ t, r.lockedAt = some t ∧ t < now - l * 1000 := by
  unfold stale
  cases h : r.lockedAt <;> simp [h]

lemma ordBefore_iff (a b : JobRow) :
    ordBefore a b = true ↔
      a.runAfter < b.runAfter ∨ (a.runAfter = b.runAfter ∧ a.id < b.id) := by
  simp [ordBefore]

lemma pickMin_spec (l : List JobRow) :
    (l = [] ∧ pickMin l = none) ∨
    ∃ m, pickMin l = some m ∧ m ∈ l ∧
      ∀ r ∈ l, m.runAfter < r.runAfter ∨ (m.runAfter = r.runAfter ∧ m.id ≤ r.id) := by
  induction l with
  | nil => left; exact ⟨rfl, rfl⟩
  | cons a rs ih =>
    right
    rcases ih with ⟨hrs, _⟩ | ⟨b, hb, hbmem, hbmin⟩
    · subst hrs
      refine ⟨a, by simp [pickMin], List.mem_cons_self a [], ?_⟩
      intro r hr
      rcases List.mem_cons.1 hr with rfl | h
      · right; exact ⟨rfl, le_refl _⟩
      · simp at h
    · by_cases hord : ordBefore b a = true
      · refine ⟨b, by simp [pickMin, hb, hord], List.mem_cons_of_mem _ hbmem, ?_⟩
        intro r hr
        rcases List.mem_cons.1 hr with rfl | h
        · rcases (ordBefore_iff b r).1 hord with h1 | ⟨h1, h2⟩
          · left; exact h1
          · right; exact ⟨h1, le_of_lt h2⟩
        · exact hbmin r h
      · refine ⟨a, by simp [pickMin, hb, hord], List.mem_cons_self a rs, ?_⟩
        have hna : ¬ (b.runAfter < a.runAfter ∨ (b.runAfter = a.runAfter ∧ b.id < a.id)) :=
          fun hc => hord ((ordBefore_iff b a).2 hc)
        push_neg at hna
        intro r hr
        rcases List.mem_cons.1 hr with rfl | h
        · right; exact ⟨rfl, le_refl _⟩
        · have hAB := hna.1
          by_cases h5 : b.runAfter = a.runAfter
          · have h6 := hna.2 h5
            rcases hbmin r h with h1 | ⟨h1, h2⟩ <;> omega
          · rcases hbmin r h with h1 | ⟨h1, h2⟩ <;> omega

lemma map_field_eq {β : Type} (l : List JobRow) (g : JobRow → JobRow) (f : JobRow → β)
    (h : ∀ r, f (g r) = f r) : (l.map g).map f = l.map f := by
  rw [List.map_map, show f ∘ g = f from funext h]

lemma WF_map (jobs : List JobRow) (runs runs' : List JobRun) (nextId : Nat)
    (g : JobRow → JobRow)
    (hid : ∀ r, (g r).id = r.id)
    (hkey : ∀ r, (g r).type = r.type ∧ (g r).key = r.key)
    (h : WF ⟨jobs, runs, nextId⟩) : WF ⟨jobs.map g, runs', nextId⟩ := by
  obtain ⟨h1, h2, h3⟩ := h
  refine ⟨?_, ?_, ?_⟩
  · show ((jobs.map g).map (fun r => r.id)).Nodup
    rw [map_field_eq _ g _ hid]; exact h1
  · intro r hr
    rcases List.mem_map.1 hr with ⟨j, hj, rfl⟩
    show (g j).id < nextId
    rw [hid j]; exact h2 j hj
  · show ((jobs.map g).map (fun r => (r.type, r.key))).Nodup
    rw [map_field_eq _ g (fun r => (r.type, r.key))
      (fun r => by rw [Prod.mk.injEq]; exact hkey r)]
    exact h3

lemma WF_insert (st : QueueState) (row : JobRow) (hrow : row.id = st.nextId)
    (hkey : ∀ r ∈ st.jobs, ¬ (r.type = row.type ∧ r.key = row.key))
    (h : WF st) : WF ⟨st.jobs ++ [row], st.runs, st.nextId + 1⟩ := by
  obtain ⟨h1, h2, h3⟩ := h
  refine ⟨?_, ?_, ?_⟩
  · show ((st.jobs ++ [row]).map (fun r => r.id)).Nodup
    rw [List.map_append, List.nodup_append]
    refine ⟨h1, by simp, ?_⟩
    intro x hx hx2
    rcases List.mem_map.1 hx with ⟨j, hj, rfl⟩
    simp only [List.map_cons, List.map_nil, List.mem_singleton] at hx2
    have := h2 j hj
    omega
  · intro r hr
    show r.id < st.nextId + 1
    rcases List.mem_append.1 hr with hr | hr
    · have := h2 r hr; omega
    · simp only [List.mem_singleton] at hr; subst hr; omega
  · show ((st.jobs ++ [row]).map (fun r => (r.type, r.key))).Nodup
    rw [List.map_append, List.nodup_append]
    refine ⟨h3, by simp, ?_⟩
    intro x hx hx2
    rcases List.mem_map.1 hx with ⟨j, hj, rfl⟩
    simp only [List.map_cons, List.map_nil, List.mem_singleton] at hx2
    rw [Prod.mk.injEq] at hx2
    exact hkey j hj ⟨hx2.1, hx2.2⟩

lemma step_WF (st : QueueState) (a : Action) (h : WF st) : WF (step st a) := by
  obtain ⟨jobs, runs, nextId⟩ := st
  cases a with
  | enq input now =>
    show WF (enqueueJob ⟨jobs, runs, nextId⟩ input now).1
    unfold enqueueJob
    cases hf : jobs.find? (fun r => decide (r.type = input.type ∧ r.key = input.key)) with
    | none =>
      simp only [hf]
      exact WF_insert ⟨jobs, runs, nextId⟩ _ rfl
        (fun r hr hc => by
          have hn := List.find?_eq_none.1 hf r hr
          simp only [decide_eq_true_eq] at hn
          exact hn hc) h
    | some r0 =>
      simp only [hf]
      exact WF_map jobs runs runs nextId _
        (fun r => by by_cases hc : r.id = r0.id <;> simp [hc, conflictUpdate])
        (fun r => by by_cases hc : r.id = r0.id <;> simp [hc, conflictUpdate]) h
  | claim w now =>
    show WF (claimNextJob ⟨jobs, runs, nextId⟩ w now).1
    unfold claimNextJob
    cases hp : pickMin (List.filter (eligible now) jobs) with
    | none => simpa [hp] using h
    | some m =>
      simp only [hp]
      exact WF_map jobs runs runs nextId _
        (fun r => by by_cases hc : r.id = m.id <;> simp [hc, claimUpdate])
        (fun r => by by_cases hc : r.id = m.id <;> simp [hc, claimUpdate]) h
  | succ job s f rs =>
    show WF (markJobSuccess ⟨jobs, runs, nextId⟩ job s f rs)
    exact WF_map jobs runs _ nextId _
      (fun r => by by_cases hc : r.id = job.id <;> simp [hc])
      (fun r => by by_cases hc : r.id = job.id <;> simp [hc]) h
  | fail job s f msg stk jit =>
    show WF (markJobFailure ⟨jobs, runs, nextId⟩ job s f msg stk jit)
    exact WF_map jobs runs _ nextId _
      (fun r => by by_cases hc : r.id = job.id <;> simp [hc])
      (fun r => by by_cases hc : r.id = job.id <;> simp [hc]) h
  | reclaim l now =>
    show WF (requeueStaleRunningJobs ⟨jobs, runs, nextId⟩ l now)
    exact WF_map jobs runs _ nextId _
      (fun r => by by_cases hc : stale l now r = true <;> simp [hc])
      (fun r => by by_cases hc : stale l now r = true <;> simp [hc]) h

lemma markJobFailure_jobs (st : QueueState) (job : JobFailureContext)
    (s f : Int) (msg stk : String) (jit : Int) :
    (markJobFailure st job s f msg stk jit).jobs = st.jobs.map (fun r =>
      if r.id = job.id then
        { r with
          status := if job.attempts < job.maxAttempts then JobStatus.retrying
            else JobStatus.dead
          lockedBy := none
          lockedAt := none
          lastError := some (trim msg 2000)
          lastErrorAt := some f
          runAfter := if job.attempts < job.maxAttempts then
            f + backoffMs job.attempts jit else r.runAfter
          updatedAt := f }
      else r) := rfl

lemma markJobFailure_runs (st : QueueState) (job : JobFailureContext)
    (s f : Int) (msg stk : String) (jit : Int) :
    (markJobFailure st job s f msg stk jit).runs =
      { jobId := job.id, type := job.type, key := job.key
        attempt := job.attempts, status := "fail"
        startedAt := s, finishedAt := f, durationMs := f - s
        errorMessage := some (trim msg 2000)
        errorStack := if stk.isEmpty then none else some (trim stk 8000)
        resultSummary := none : JobRun } :: st.runs := rfl

lemma markJobSuccess_jobs (st : QueueState) (job : JobSuccessContext)
    (s f : Int) (rs : Option String) :
    (markJobSuccess st job s f rs).jobs = st.jobs.map (fun r =>
      if r.id = job.id then
        { r with
          status := JobStatus.succeeded
          lockedBy := none
          lockedAt := none
          lastError := none
          lastErrorAt := none
          updatedAt := f }
      else r) := rfl

lemma markJobSuccess_runs (st : QueueState) (job : JobSuccessContext)
    (s f : Int) (rs : Option String) :
    (markJobSuccess st job s f rs).runs =
      { jobId := job.id, type := job.type, key := job.key
        attempt := job.attempts, status := "success"
        startedAt := s, finishedAt := f, durationMs := f - s
        errorMessage := none, errorStack := none
        resultSummary :=
          match rs with
          | none => none
          | some str => if str.isEmpty then none else some (trim str 2000) : JobRun }
        :: st.runs := rfl

end SunsetQueue

namespace SunsetQueue

lemma mem_id_eq {st : QueueState} (hWF : WF st) {j r : JobRow}
    (hj : j ∈ st.jobs) (hr : r ∈ st.jobs) (h : j.id = r.id) : j = r :=
  List.inj_on_of_nodup_map hWF.1 hj hr h

lemma step_inv (st : QueueState) (a : Action) (hWF : WF st)
    (hInv : AttemptsInv st) (hG : Good st a) : AttemptsInv (step st a) := by
  cases a with
  | enq input now =>
    obtain ⟨hpos, hrun⟩ := hG
    show AttemptsInv (enqueueJob st input now).1
    unfold enqueueJob
    cases hf : st.jobs.find? (fun r => decide (r.type = input.type ∧ r.key = input.key)) with
    | none =>
      simp only [hf]
      intro r hr
      rcases List.mem_append.1 hr with hr | hr
      · exact hInv r hr
      · simp only [List.mem_singleton] at hr
        subst hr
        refine ⟨le_of_lt hpos, fun _ => hpos⟩
    | some r0 =>
      simp only [hf]
      have hr0mem := List.mem_of_find?_eq_some hf
      have hr0p := List.find?_some hf
      simp only [decide_eq_true_eq] at hr0p
      intro r hr
      rcases List.mem_map.1 hr with ⟨j, hj, rfl⟩
      by_cases hc : j.id = r0.id
      · have hj0 : j = r0 := mem_id_eq hWF hj hr0mem hc
        subst hj0
        rw [if_pos hc]
        unfold conflictUpdate
        by_cases hst : j.status = JobStatus.running
        · simp only [if_pos hst]
          refine ⟨?_, ?_⟩
          · show j.attempts ≤ input.maxAttempts.getD 5
            exact hrun j hj hr0p.1 hr0p.2 hst
          · intro hq
            rw [hst] at hq
            rcases hq with hq | hq <;> cases hq
        · simp only [if_neg hst]
          exact ⟨le_of_lt hpos, fun _ => hpos⟩
      · rw [if_neg hc]
        exact hInv j hj
  | claim w now =>
    show AttemptsInv (claimNextJob st w now).1
    unfold claimNextJob
    cases hp : pickMin (st.jobs.filter (eligible now)) with
    | none => simpa [hp] using hInv
    | some m =>
      simp only [hp]
      have hmem : m ∈ st.jobs.filter (eligible now) := by
        rcases pickMin_spec (st.jobs.filter (eligible now)) with ⟨_, hnone⟩ | ⟨b, hb, hbm, _⟩
        · rw [hp] at hnone; cases hnone
        · rw [hp] at hb
          injection hb with hb
          subst hb
          exact hbm
      have hmjobs : m ∈ st.jobs := (List.mem_filter.1 hmem).1
      have helig := (eligible_iff now m).1 (List.mem_filter.1 hmem).2
      have hstrict : m.attempts < m.maxAttempts := (hInv m hmjobs).2 helig.1
      intro r hr
      rcases List.mem_map.1 hr with ⟨j, hj, rfl⟩
      by_cases hc : j.id = m.id
      · have hj0 : j = m := mem_id_eq hWF hj hmjobs hc
        subst hj0
        rw [if_pos hc]
        unfold claimUpdate
        refine ⟨?_, ?_⟩
        · show j.attempts + 1 ≤ j.maxAttempts
          omega
        · intro hq
          rcases hq with hq | hq <;> cases hq
      · rw [if_neg hc]
        exact hInv j hj
  | succ job s f rs =>
    show AttemptsInv (markJobSuccess st job s f rs)
    rw [AttemptsInv, markJobSuccess_jobs]
    intro r hr
    rcases List.mem_map.1 hr with ⟨j, hj, rfl⟩
    by_cases hc : j.id = job.id
    · rw [if_pos hc]
      refine ⟨(hInv j hj).1, ?_⟩
      intro hq
      rcases hq with hq | hq <;> cases hq
    · rw [if_neg hc]
      exact hInv j hj
  | fail job s f msg stk jit =>
    show AttemptsInv (markJobFailure st job s f msg stk jit)
    rw [AttemptsInv, markJobFailure_jobs]
    intro r hr
    rcases List.mem_map.1 hr with ⟨j, hj, rfl⟩
    by_cases hc : j.id = job.id
    · obtain ⟨ha, hm⟩ := hG j hj hc
      rw [if_pos hc]
      by_cases hwr : job.attempts < job.maxAttempts
      · simp only [if_pos hwr]
        refine ⟨?_, ?_⟩
        · show j.attempts ≤ j.maxAttempts
          omega
        · intro _
          show j.attempts < j.maxAttempts
          omega
      · simp only [if_neg hwr]
        refine ⟨(hInv j hj).1, ?_⟩
        intro hq
        rcases hq with hq | hq <;> cases hq
    · rw [if_neg hc]
      exact hInv j hj
  | reclaim l now => cases hG

lemma reachableGood_WF_inv {st : QueueState} (h : ReachableGood st) :
    WF st ∧ AttemptsInv st := by
  induction h with
  | init =>
    refine ⟨⟨?_, ?_, ?_⟩, ?_⟩ <;> simp [emptyState, AttemptsInv]
  | step hre hg ih =>
    exact ⟨step_WF _ _ ih.1, step_inv _ _ ih.1 ih.2 hg⟩

end SunsetQueue

namespace SunsetQueue

/-- C3: claim returns none exactly when no row is eligible (and then changes
nothing); otherwise it selects the eligible row with the smallest
(run_after, id), updates only that row to running with the lock fields,
attempts incremented by one and updated_at refreshed, and returns it. -/
theorem claimNextJob_correct (st : QueueState) (w : String) (now : Int)
    (hWF : WF st) :
    ((claimNextJob st w now).2 = none ↔ ∀ r ∈ st.jobs, eligible now r = false) ∧
    ((claimNextJob st w now).2 = none → (claimNextJob st w now).1 = st) ∧
    (∀ j, (claimNextJob st w now).2 = some j →
      ∃ m ∈ st.jobs, eligible now m = true ∧
        (∀ r ∈ st.jobs, eligible now r = true →
          m.runAfter < r.runAfter ∨ (m.runAfter = r.runAfter ∧ m.id ≤ r.id)) ∧
        j.id = m.id ∧ j.type = m.type ∧ j.key = m.key ∧ j.payload = m.payload ∧
        j.status = JobStatus.running ∧ j.lockedBy = some w ∧ j.lockedAt = some now ∧
        j.attempts = m.attempts + 1 ∧ j.updatedAt = now ∧
        j.runAfter = m.runAfter ∧ j.maxAttempts = m.maxAttempts ∧
        j.lastError = m.lastError ∧ j.lastErrorAt = m.lastErrorAt ∧
        j.createdAt = m.createdAt ∧
        (claimNextJob st w now).1.runs = st.runs ∧
        (claimNextJob st w now).1.nextId = st.nextId ∧
        (claimNextJob st w now).1.jobs =
          st.jobs.map (fun r => if r.id = m.id then j else r) ∧
        (∀ r ∈ st.jobs, r.id ≠ m.id → r ∈ (claimNextJob st w now).1.jobs)) := by
  unfold claimNextJob
  rcases pickMin_spec (st.jobs.filter (eligible now)) with ⟨hnil, hnone⟩ | ⟨m, hm, hmem, hmin⟩
  · rw [hnone]
    refine ⟨?_, ?_, ?_⟩
    · refine ⟨fun _ r hr => ?_, fun _ => rfl⟩
      have := List.filter_eq_nil_iff.1 hnil r hr
      simp only [Bool.not_eq_true] at this
      exact this
    · intro _; rfl
    · intro j hj; cases hj
  · rw [hm]
    have hmjobs : m ∈ st.jobs := (List.mem_filter.1 hmem).1
    have helig : eligible now m = true := (List.mem_filter.1 hmem).2
    refine ⟨?_, ?_, ?_⟩
    · constructor
      · intro h; cases h
      · intro hall
        rw [hall m hmjobs] at helig
        cases helig
    · intro h; cases h
    · intro j hj
      injection hj with hj
      subst hj
      refine ⟨m, hmjobs, helig, ?_, rfl, rfl, rfl, rfl, rfl, rfl, rfl, rfl, rfl,
        rfl, rfl, rfl, rfl, rfl, rfl, rfl, ?_, ?_⟩
      · intro r hr he
        exact hmin r (List.mem_filter.2 ⟨hr, he⟩)
      · show st.jobs.map (fun r => if r.id = m.id then claimUpdate w now r else r) =
          st.jobs.map (fun r => if r.id = m.id then claimUpdate w now m else r)
        apply List.map_congr_left
        intro r hr
        by_cases hc : r.id = m.id
        · rw [if_pos hc, if_pos hc, mem_id_eq hWF hr hmjobs hc]
        · rw [if_neg hc, if_neg hc]
      · intro r hr hne
        show r ∈ st.jobs.map (fun x => if x.id = m.id then claimUpdate w now x else x)
        exact List.mem_map.2 ⟨r, hr, by rw [if_neg hne]⟩

/-- Witness for C3 at a concrete state: the empty database yields no claim. -/
theorem claimNextJob_correct_witness :
    claimNextJob emptyState "w" 0 = (emptyState, none) := by
  have h := claimNextJob_correct emptyState "w" 0 (by refine ⟨?_, ?_, ?_⟩ <;> simp [emptyState])
  have h2 : (claimNextJob emptyState "w" 0).2 = none :=
    h.1.2 (by intro r hr; simp [emptyState] at hr)
  have h1 : (claimNextJob emptyState "w" 0).1 = emptyState := h.2.1 h2
  calc claimNextJob emptyState "w" 0
      = ((claimNextJob emptyState "w" 0).1, (claimNextJob emptyState "w" 0).2) := rfl
    _ = (emptyState, none) := by rw [h1, h2]

end SunsetQueue

namespace SunsetQueue

/-- C1 counterexample: enqueueing against a running row DOES overwrite its
payload (the ON CONFLICT SET lists `payload` unconditionally), so the
"payload unchanged" part of the claim fails: the running row's payload "A"
becomes the new input's payload "B". -/
theorem enqueue_running_counterexample :
    exRunningRow.status = JobStatus.running ∧
    exRunningRow.payload = "A" ∧
    (enqueueJob exRunningState exEnqueueB 100).2.payload = "B" ∧
    (enqueueJob exRunningState exEnqueueB 100).1.jobs.map (fun r => r.payload) = ["B"] := by
  refine ⟨rfl, rfl, rfl, ?_⟩
  decide

/-- C1 amended: enqueue against a running `(type, key)` row leaves `status`,
`run_after` and `attempts` untouched, overwrites `payload` with the new
payload, refreshes `max_attempts`, clears `last_error`/`last_error_at` and
bumps `updated_at`; no other row is touched and no run is appended. -/
theorem enqueue_running_frame (st : QueueState) (input : EnqueueInput) (now : Int)
    (hWF : WF st) (r : JobRow) (hr : r ∈ st.jobs)
    (ht : r.type = input.type) (hk : r.key = input.key)
    (hrun : r.status = JobStatus.running) :
    (enqueueJob st input now).2.status = r.status ∧
    (enqueueJob st input now).2.runAfter = r.runAfter ∧
    (enqueueJob st input now).2.attempts = r.attempts ∧
    (enqueueJob st input now).2.payload = input.payload.getD "{}" ∧
    (enqueueJob st input now).2.maxAttempts = input.maxAttempts.getD 5 ∧
    (enqueueJob st input now).2.lastError = none ∧
    (enqueueJob st input now).2.lastErrorAt = none ∧
    (enqueueJob st input now).2.updatedAt = now ∧
    (enqueueJob st input now).2.id = r.id ∧
    (enqueueJob st input now).2.lockedBy = r.lockedBy ∧
    (enqueueJob st input now).2.lockedAt = r.lockedAt ∧
    (enqueueJob st input now).1.jobs =
      st.jobs.map (fun j => if j.id = r.id then (enqueueJob st input now).2 else j) ∧
    (enqueueJob st input now).1.runs = st.runs ∧
    (enqueueJob st input now).1.nextId = st.nextId := by
  have hfind : st.jobs.find? (fun j => decide (j.type = input.type ∧ j.key = input.key))
      = some r := by
    cases hf : st.jobs.find? (fun j => decide (j.type = input.type ∧ j.key = input.key)) with
    | none =>
      exfalso
      have := List.find?_eq_none.1 hf r hr
      simp only [decide_eq_true_eq] at this
      exact this ⟨ht, hk⟩
    | some r0 =>
      have hr0mem := List.mem_of_find?_eq_some hf
      have hr0p := List.find?_some hf
      simp only [decide_eq_true_eq] at hr0p
      have : r0 = r := by
        apply List.inj_on_of_nodup_map hWF.2.2 hr0mem hr
        rw [Prod.mk.injEq]
        exact ⟨hr0p.1.trans ht.symm, hr0p.2.trans hk.symm⟩
      rw [this]
  unfold enqueueJob
  rw [hfind]
  refine ⟨by simp [conflictUpdate, hrun], by simp [conflictUpdate, hrun],
    by simp [conflictUpdate, hrun], rfl, rfl, rfl, rfl, rfl, rfl, rfl, rfl, ?_, rfl, rfl⟩
  apply List.map_congr_left
  intro j hj
  by_cases hc : j.id = r.id
  · rw [if_pos hc, if_pos hc, mem_id_eq hWF hj hr hc]
  · rw [if_neg hc, if_neg hc]

/-- Witness for the amended C1 at the concrete running row. -/
theorem enqueue_running_frame_witness :
    (enqueueJob exRunningState exEnqueueB 100).2.status = exRunningRow.status ∧
    (enqueueJob exRunningState exEnqueueB 100).2.attempts = exRunningRow.attempts ∧
    (enqueueJob exRunningState exEnqueueB 100).2.runAfter = exRunningRow.runAfter := by
  have h := enqueue_running_frame exRunningState exEnqueueB 100
    (by refine ⟨?_, ?_, ?_⟩ <;> decide) exRunningRow (by decide) rfl rfl rfl
  exact ⟨h.1, h.2.2.1, h.2.1⟩

end SunsetQueue

namespace SunsetQueue

/-- C2 counterexample: the state reached by enqueue (max_attempts 1), claim,
stale-lease reclaim, claim is reachable under the five operations, and its
single row has attempts = 2 > max_attempts = 1: the bound is not an
invariant (the reclaimed claim exceeds it). -/
theorem attempts_bound_counterexample :
    Reachable (run emptyState exReclaimTrace) ∧
    ∃ r ∈ (run emptyState exReclaimTrace).jobs,
      r.attempts = 2 ∧ r.maxAttempts = 1 ∧ ¬ r.attempts ≤ r.maxAttempts := by
  constructor
  · show Reachable (step (step (step (step emptyState
        (Action.enq exReclaimInput 0)) (Action.claim "w1" 10))
        (Action.reclaim 1 2000000)) (Action.claim "w2" 2000001))
    exact Reachable.step (Reachable.step (Reachable.step (Reachable.step Reachable.init)))
  · decide

/-- C2 amended: the bound `attempts ≤ max_attempts` holds at every state
reachable by enqueue, claim, success and failure when `reclaim_stale` is
never invoked, every enqueue carries a positive max_attempts not below the
attempts of a same-(type,key) running row, and completions are reported
with the claimed row's current context; with `reclaim_stale` (or an
enqueue lowering max_attempts under a running row) the bound can be
exceeded, as the counterexample shows. -/
theorem attempts_bound_of_reachableGood {st : QueueState}
    (h : ReachableGood st) : ∀ r ∈ st.jobs, r.attempts ≤ r.maxAttempts :=
  fun r hr => ((reachableGood_WF_inv h).2 r hr).1

/-- Witness for the amended C2: the row enqueued into the empty database
satisfies the bound. -/
theorem attempts_bound_witness :
    (enqueueJob emptyState exPingInput 0).2.attempts ≤
      (enqueueJob emptyState exPingInput 0).2.maxAttempts := by
  have hgood : Good emptyState (Action.enq exPingInput 0) := by
    refine ⟨by decide, ?_⟩
    intro r hr
    simp [emptyState] at hr
  have hre : ReachableGood (step emptyState (Action.enq exPingInput 0)) :=
    ReachableGood.step ReachableGood.init hgood
  exact attempts_bound_of_reachableGood hre
    (enqueueJob emptyState exPingInput 0).2 (by decide)

end SunsetQueue

namespace SunsetQueue

/-- C4: failure appends exactly one fail JobRun carrying attempt =
claim.attempts and the trimmed message, and updates the job row: retrying
with run_after = finish + backoff(attempt) when attempts < max_attempts,
dead with run_after untouched otherwise; lock cleared, last_error set, in
the same transaction (one atomic step). -/
theorem markJobFailure_correct (st : QueueState) (job : JobFailureContext)
    (s f : Int) (msg stk : String) (jit : Int) :
    (∃ run, (markJobFailure st job s f msg stk jit).runs = run :: st.runs ∧
      run.status = "fail" ∧ run.attempt = job.attempts ∧ run.jobId = job.id ∧
      run.errorMessage = some (trim msg 2000) ∧
      run.startedAt = s ∧ run.finishedAt = f ∧ run.durationMs = f - s) ∧
    (markJobFailure st job s f msg stk jit).nextId = st.nextId ∧
    (∀ r ∈ st.jobs, r.id ≠ job.id →
      r ∈ (markJobFailure st job s f msg stk jit).jobs) ∧
    (∀ r ∈ st.jobs, r.id = job.id →
      ∃ r' ∈ (markJobFailure st job s f msg stk jit).jobs,
        r'.id = r.id ∧ r'.type = r.type ∧ r'.key = r.key ∧
        r'.payload = r.payload ∧ r'.attempts = r.attempts ∧
        r'.maxAttempts = r.maxAttempts ∧
        r'.lockedBy = none ∧ r'.lockedAt = none ∧
        r'.lastError = some (trim msg 2000) ∧ r'.lastErrorAt = some f ∧
        r'.updatedAt = f ∧
        (job.attempts < job.maxAttempts →
          r'.status = JobStatus.retrying ∧
          r'.runAfter = f + backoffMs job.attempts jit) ∧
        (¬ job.attempts < job.maxAttempts →
          r'.status = JobStatus.dead ∧ r'.runAfter = r.runAfter)) := by
  refine ⟨⟨_, markJobFailure_runs st job s f msg stk jit, rfl, rfl, rfl, rfl,
    rfl, rfl, rfl⟩, rfl, ?_, ?_⟩
  · intro r hr hne
    rw [markJobFailure_jobs]
    exact List.mem_map.2 ⟨r, hr, by rw [if_neg hne]⟩
  · intro r hr heq
    rw [markJobFailure_jobs]
    refine ⟨_, List.mem_map.2 ⟨r, hr, rfl⟩, ?_⟩
    simp only [if_pos heq]
    by_cases hwr : job.attempts < job.maxAttempts
    · simp [hwr]
    · simp [hwr]

/-- Witness for C4 at the concrete running row (attempts 1 < max 5). -/
theorem markJobFailure_correct_witness :
    ∃ r' ∈ (markJobFailure exRunningState exFailureCtx 0 5 "boom" "" 7).jobs,
      r'.status = JobStatus.retrying ∧
      r'.runAfter = 5 + backoffMs exFailureCtx.attempts 7 ∧ r'.lockedBy = none := by
  obtain ⟨r', hmem, hid, hty, hkey, hpay, hat, hmax, hlb, hla, hle, hleat,
    hupd, hretry, hdead⟩ :=
    (markJobFailure_correct exRunningState exFailureCtx 0 5 "boom" "" 7).2.2.2
      exRunningRow (by decide) rfl
  obtain ⟨hst, hra⟩ := hretry (by decide)
  exact ⟨r', hmem, hst, hra, hlb⟩

/-- C5: stale-reclaim transitions exactly the running rows whose lease
expired (locked_at non-null and older than now − lease_seconds) to
retrying with the lock cleared, run_after = now, attempts unchanged, and
last_error coalesced to "stale lease reclaimed"; all other rows are left
untouched and no JobRun is appended. -/
theorem requeueStale_correct (st : QueueState) (l now : Int) :
    (requeueStaleRunningJobs st l now).runs = st.runs ∧
    (requeueStaleRunningJobs st l now).nextId = st.nextId ∧
    (requeueStaleRunningJobs st l now).jobs.length = st.jobs.length ∧
    (∀ r ∈ st.jobs,
      ¬ (r.status = JobStatus.running ∧ ∃ t, r.lockedAt = some t ∧ t < now - l * 1000) →
      r ∈ (requeueStaleRunningJobs st l now).jobs) ∧
    (∀ r ∈ st.jobs,
      (r.status = JobStatus.running ∧ ∃ t, r.lockedAt = some t ∧ t < now - l * 1000) →
      ∃ r' ∈ (requeueStaleRunningJobs st l now).jobs,
        r'.id = r.id ∧ r'.type = r.type ∧ r'.key = r.key ∧ r'.payload = r.payload ∧
        r'.status = JobStatus.retrying ∧ r'.lockedBy = none ∧ r'.lockedAt = none ∧
        r'.runAfter = now ∧ r'.attempts = r.attempts ∧ r'.maxAttempts = r.maxAttempts ∧
        r'.lastError = some (r.lastError.getD "stale lease reclaimed") ∧
        r'.lastErrorAt = some now ∧ r'.updatedAt = now ∧ r'.createdAt = r.createdAt) := by
  refine ⟨rfl, rfl, by simp [requeueStaleRunningJobs], ?_, ?_⟩
  · intro r hr hns
    show r ∈ st.jobs.map _
    refine List.mem_map.2 ⟨r, hr, ?_⟩
    rw [if_neg (fun hc => hns ((stale_iff l now r).1 hc))]
  · intro r hr hs
    refine ⟨_, List.mem_map.2 ⟨r, hr, rfl⟩, ?_⟩
    simp [if_pos ((stale_iff l now r).2 hs)]

/-- Witness for C5: the concrete running row with an expired lease is
reclaimed to retrying with the coalesced error message. -/
theorem requeueStale_correct_witness :
    ∃ r' ∈ (requeueStaleRunningJobs exRunningState 1 2000).jobs,
      r'.status = JobStatus.retrying ∧ r'.attempts = exRunningRow.attempts ∧
      r'.lastError = some "stale lease reclaimed" := by
  obtain ⟨r', hmem, hid, hty, hkey, hpay, hst, hlb, hla, hra, hat, hmax,
    hle, hleat, hupd, hcr⟩ :=
    (requeueStale_correct exRunningState 1 2000).2.2.2.2 exRunningRow (by decide)
      ⟨rfl, 0, rfl, by decide⟩
  exact ⟨r', hmem, hst, hat, hle⟩

/-- C10 (implicit): success and failure select the job row by id alone —
no check of current status or locked_by — so any row with that id is
transitioned (to succeeded, resp. the failure outcome), and the JobRun is
appended unconditionally. -/
theorem completion_selects_by_id_only (st : QueueState)
    (sjob : JobSuccessContext) (fjob : JobFailureContext) (s f : Int)
    (rs : Option String) (msg stk : String) (jit : Int) :
    (∃ run, (markJobSuccess st sjob s f rs).runs = run :: st.runs ∧
      run.status = "success" ∧ run.attempt = sjob.attempts) ∧
    (∀ r ∈ st.jobs, r.id = sjob.id →
      ∃ r' ∈ (markJobSuccess st sjob s f rs).jobs,
        r'.id = r.id ∧ r'.status = JobStatus.succeeded ∧ r'.lockedBy = none ∧
        r'.lockedAt = none ∧ r'.lastError = none ∧ r'.lastErrorAt = none ∧
        r'.attempts = r.attempts ∧ r'.updatedAt = f) ∧
    (∃ run, (markJobFailure st fjob s f msg stk jit).runs = run :: st.runs ∧
      run.status = "fail" ∧ run.attempt = fjob.attempts) ∧
    (∀ r ∈ st.jobs, r.id = fjob.id →
      ∃ r' ∈ (markJobFailure st fjob s f msg stk jit).jobs,
        r'.id = r.id ∧ r'.lockedBy = none ∧ r'.lockedAt = none ∧
        (fjob.attempts < fjob.maxAttempts → r'.status = JobStatus.retrying) ∧
        (¬ fjob.attempts < fjob.maxAttempts → r'.status = JobStatus.dead)) := by
  refine ⟨⟨_, markJobSuccess_runs st sjob s f rs, rfl, rfl⟩, ?_,
    ⟨_, markJobFailure_runs st fjob s f msg stk jit, rfl, rfl⟩, ?_⟩
  · intro r hr heq
    rw [markJobSuccess_jobs]
    refine ⟨_, List.mem_map.2 ⟨r, hr, rfl⟩, ?_⟩
    simp [if_pos heq]
  · intro r hr heq
    rw [markJobFailure_jobs]
    refine ⟨_, List.mem_map.2 ⟨r, hr, rfl⟩, ?_⟩
    simp only [if_pos heq]
    by_cases hwr : fjob.attempts < fjob.maxAttempts
    · simp [hwr]
    · simp [hwr]

/-- Witness for C10: a running row claimed by another worker is still set
to succeeded by markJobSuccess (no locked_by check). -/
theorem completion_selects_by_id_only_witness :
    ∃ r' ∈ (markJobSuccess exRunningState exSuccessCtx 0 5 none).jobs,
      r'.status = JobStatus.succeeded ∧ r'.lockedBy = none := by
  obtain ⟨r', hmem, hid, hst, hlb, hla, hle, hleat, hat, hupd⟩ :=
    (completion_selects_by_id_only exRunningState exSuccessCtx exFailureCtx
      0 5 none "x" "" 0).2.1 exRunningRow (by decide) rfl
  exact ⟨r', hmem, hst, hlb⟩

end SunsetQueue

namespace SunsetQueue

/-- C6: for attempt ≥ 1 and jitter 0 ≤ j < 1000, the backoff delay is
exactly min(cap, base·2^(attempt−1)) + j with base 10000 ms and cap
900000 ms, hence at least the capped exponential and strictly below it
plus 1000. -/
theorem backoffMs_formula (a j : Int) (ha : 1 ≤ a) (hj0 : 0 ≤ j) (hj : j < 1000) :
    backoffMs a j = min (15 * 60 * 1000) (10 * 1000 * 2 ^ (a - 1).toNat) + j ∧
    min (15 * 60 * 1000) (10 * 1000 * 2 ^ (a - 1).toNat) ≤ backoffMs a j ∧
    backoffMs a j < min (15 * 60 * 1000) (10 * 1000 * 2 ^ (a - 1).toNat) + 1000 := by
  unfold backoffMs
  have hmax : max 0 (a - 1) = a - 1 := by omega
  rw [hmax]
  norm_num
  omega

/-- Witness for C6 at attempt 3, jitter 250: 40000 + 250. -/
theorem backoffMs_formula_witness :
    backoffMs 3 250 = min (15 * 60 * 1000) (10 * 1000 * 2 ^ ((3 : Int) - 1).toNat) + 250 :=
  (backoffMs_formula 3 250 (by norm_num) (by norm_num) (by norm_num)).1

end SunsetQueue

namespace SunsetQueue

/-- C7 counterexample: trimming appends the three-character marker
(`â€¦`, a mojibake ellipsis) AFTER slicing to `max` characters, so a
2001-character message is stored as a 2003-character error_message (2000
characters plus the marker), violating the claimed ≤ 2000 bound. -/
theorem trim_bound_counterexample :
    longErrorMessage.length = 2001 ∧
    ∃ run, (markJobFailure emptyState exFailureCtx 0 5 longErrorMessage "" 0).runs
        = [run] ∧
      run.errorMessage = some (trim longErrorMessage 2000) ∧
      ¬ (trim longErrorMessage 2000).length ≤ 2000 := by
  have hlen : longErrorMessage.length = 2001 := by
    show (List.replicate 2001 'a').length = 2001
    rw [List.length_replicate]
  refine ⟨hlen, _, markJobFailure_runs emptyState exFailureCtx 0 5 longErrorMessage "" 0,
    rfl, ?_⟩
  rw [trim_length, hlen]
  norm_num

/-- C7 amended: the stored strings are bounded by three MORE than the
documented caps — trim keeps inputs within the cap unchanged and replaces
longer inputs by their first `max` characters plus the three-character
marker `â€¦`, for a total of exactly max + 3; hence error_message and
result_summary are at most 2003 characters and error_stack at most 8003. -/
theorem trim_bounds (s : String) (max : Nat) (st : QueueState)
    (fjob : JobFailureContext) (sjob : JobSuccessContext)
    (t0 t1 : Int) (msg stk : String) (jit : Int) (rs : Option String) :
    ((trim s max).length ≤ max + 3) ∧
    (s.length ≤ max → trim s max = s) ∧
    (max < s.length → (trim s max).length = max + 3) ∧
    (∃ run, (markJobFailure st fjob t0 t1 msg stk jit).runs = run :: st.runs ∧
      (∀ e, run.errorMessage = some e → e.length ≤ 2003) ∧
      (∀ e, run.errorStack = some e → e.length ≤ 8003)) ∧
    (∃ run, (markJobSuccess st sjob t0 t1 rs).runs = run :: st.runs ∧
      ∀ e, run.resultSummary = some e → e.length ≤ 2003) := by
  refine ⟨?_, ?_, ?_, ?_, ?_⟩
  · rw [trim_length]; split <;> omega
  · intro h; unfold trim; rw [if_pos h]
  · intro h; rw [trim_length, if_neg (by omega)]
  · refine ⟨_, markJobFailure_runs st fjob t0 t1 msg stk jit, ?_, ?_⟩
    · intro e he
      injection he with he
      subst he
      rw [trim_length]; split <;> omega
    · intro e he
      by_cases hstk : stk.isEmpty
      · simp [hstk] at he
      · simp only [hstk, if_neg, Bool.false_eq_true, ite_false] at he
        injection he with he
        subst he
        rw [trim_length]; split <;> omega
  · refine ⟨_, markJobSuccess_runs st sjob t0 t1 rs, ?_⟩
    intro e he
    cases rs with
    | none => simp at he
    | some str =>
      by_cases hstr : str.isEmpty
      · simp [hstr] at he
      · simp only [hstr, Bool.false_eq_true, ite_false] at he
        injection he with he
        subst he
        rw [trim_length]; split <;> omega

/-- Witness for the amended C7: the 2001-character message is stored with
exactly 2003 characters, within the amended bound. -/
theorem trim_bounds_witness :
    (trim longErrorMessage 2000).length ≤ 2000 + 3 ∧
    (trim longErrorMessage 2000).length = 2000 + 3 := by
  have h := trim_bounds longErrorMessage 2000 emptyState exFailureCtx exSuccessCtx
    0 5 "m" "" 0 none
  refine ⟨h.1, h.2.2.1 ?_⟩
  show 2000 < (List.replicate 2001 'a').length
  rw [List.length_replicate]
  norm_num

end SunsetQueue

namespace SunsetQueue

/-- C8: the POST /jobs admission schema rejects — with a validation error,
before `enqueueJob` can insert or update anything — every input whose type
or key is empty or whose max_attempts is non-positive or above 50. -/
theorem postJobs_invalid_input (st : QueueState) (input : EnqueueInput) (now : Int)
    (h : input.type = "" ∨ input.key = "" ∨
      ∃ m, input.maxAttempts = some m ∧ (m ≤ 0 ∨ 50 < m)) :
    postJobs st input now = Except.error "InvalidInput" := by
  unfold postJobs
  rw [if_neg]
  intro hok
  unfold enqueueSchemaOk at hok
  rcases h with h | h | ⟨m, hm, hrange⟩
  · have : input.type.length = 0 := by rw [h]; rfl
    simp [this] at hok
  · have : input.key.length = 0 := by rw [h]; rfl
    simp [this] at hok
  · rw [hm] at hok
    simp only [Bool.and_eq_true, decide_eq_true_eq] at hok
    omega

/-- Witness for C8: an empty type is rejected. -/
theorem postJobs_invalid_input_witness :
    postJobs emptyState
      { type := "", key := "k", payload := none, runAfterMs := none,
        maxAttempts := none } 0 = Except.error "InvalidInput" :=
  postJobs_invalid_input emptyState _ 0 (Or.inl rfl)

end SunsetQueue

namespace SunsetLocations

lemma jsRound_posHalf : jsRound ((1/2000 : ℚ) * 10 ^ 3) = 1 := by
  unfold jsRound; norm_num

lemma jsRound_negHalf : jsRound ((-(1/2000) : ℚ) * 10 ^ 3) = 0 := by
  unfold jsRound; norm_num

lemma jsRound_posSmall : jsRound ((3/10000 : ℚ) * 10 ^ 3) = 0 := by
  unfold jsRound; norm_num

lemma jsRound_negSmall : jsRound ((-(3/10000) : ℚ) * 10 ^ 3) = 0 := by
  unfold jsRound; norm_num

lemma roundTo_posHalf : roundTo (1/2000) 3 = (1 : ℚ) / 1000 := by
  unfold roundTo normalizeNegativeZero
  rw [jsRound_posHalf]
  norm_num

lemma roundTo_negHalf : roundTo (-(1/2000)) 3 = 0 := by
  unfold roundTo normalizeNegativeZero
  rw [jsRound_negHalf]
  norm_num

lemma roundTo_posSmall : roundTo (3/10000) 3 = 0 := by
  unfold roundTo normalizeNegativeZero
  rw [jsRound_posSmall]
  norm_num

lemma roundTo_negSmall : roundTo (-(3/10000)) 3 = 0 := by
  unfold roundTo normalizeNegativeZero
  rw [jsRound_negSmall]
  norm_num

lemma toFixed_thousandth : toFixed ((1 : ℚ) / 1000) 3 = "0.001" := by
  unfold toFixed
  rw [show jsRound ((1 : ℚ) / 1000 * 10 ^ 3) = 1 from by unfold jsRound; norm_num]
  decide

lemma toFixed_zero : toFixed (0 : ℚ) 3 = "0.000" := by
  unfold toFixed
  rw [show jsRound ((0 : ℚ) * 10 ^ 3) = 0 from by unfold jsRound; norm_num]
  decide

lemma key_pos_neg : makeLocationKey (1/2000) (-(3/10000)) = "0.001,0.000" := by
  unfold makeLocationKey
  rw [roundTo_posHalf, roundTo_negSmall, toFixed_thousandth, toFixed_zero]
  decide

lemma key_neg_pos : makeLocationKey (-(1/2000)) (3/10000) = "0.000,0.000" := by
  unfold makeLocationKey
  rw [roundTo_negHalf, roundTo_posSmall, toFixed_zero]
  decide

/-- C9 counterexample: with lat = 0.0005 (= 1/2000) and lon = -0.0003
(= -3/10000) the key is "0.001,0.000", not the claimed "0.000,0.000":
JS Math.round rounds 0.5 up to 1 (and 0.0005 * 1000 is exactly 0.5 in
binary64), so rounding does not send 0.0005 to 0. -/
theorem location_key_counterexample :
    makeLocationKey (1/2000) (-(3/10000)) = "0.001,0.000" ∧
    ¬ makeLocationKey (1/2000) (-(3/10000)) = "0.000,0.000" := by
  refine ⟨key_pos_neg, ?_⟩
  rw [key_pos_neg]
  decide

/-- C9 amended: the key formatter rounds each coordinate to an exact
multiple of 0.001 (negative zero normalized away); the input with
lat = -0.0005, lon = 0.0003 maps to "0.000,0.000", while the input with
lat = 0.0005, lon = -0.0003 maps to "0.001,0.000" because Math.round
rounds halves toward positive infinity. -/
theorem makeLocationKey_values :
    (∀ q : ℚ, ∃ k : ℤ, roundTo q 3 = (k : ℚ) / 1000) ∧
    makeLocationKey (-(1/2000)) (3/10000) = "0.000,0.000" ∧
    makeLocationKey (1/2000) (-(3/10000)) = "0.001,0.000" := by
  refine ⟨?_, key_neg_pos, key_pos_neg⟩
  intro q
  refine ⟨jsRound (q * 10 ^ 3), ?_⟩
  unfold roundTo normalizeNegativeZero
  norm_num

end SunsetLocations
